import Mathlib

/-!
Verification development for the campaign-finance ETL pipeline
(`src/etl.py`, `src/fec_api.py`, `src/db_schema.py`).

Python strings are modelled as lists of Unicode code points (`PyStr`).
Python values flowing through pandas rows are modelled by `PyVal`, which
records the two attributes the pipeline actually uses: the rendering
produced by `str(v)` and the truthiness produced by `bool(v)`.
-/

/-- A Python string: a sequence of Unicode code points. -/
abbrev PyStr := List Nat

/-- Code points of a Lean string literal, for writing concrete inputs. -/
def pystr (s : String) : PyStr := s.toList.map Char.toNat

/-- A Python value as observed by the pipeline: its `str(v)` rendering and
its `bool(v)` truthiness. -/
structure PyVal where
  toStr : PyStr
  truthy : Bool
  deriving DecidableEq, Repr

/-- A Python string value: `str` is the identity, truthiness is nonemptiness. -/
def pvStr (s : String) : PyVal := ⟨pystr s, !(pystr s).isEmpty⟩

/-- Same as `pvStr` but starting from code points. -/
def pvOfPyStr (s : PyStr) : PyVal := ⟨s, !s.isEmpty⟩

/-- The Python float `0.0`: `str(0.0)` renders `"0.0"` and `bool(0.0)` is
`False`. -/
def pvFloatZero : PyVal := ⟨pystr "0.0", false⟩

/-- Whitespace code points recognised by `str.split()` / `str.strip()`
(the ASCII ones: space, tab, newline, carriage return, vertical tab,
form feed). -/
def isSpaceCp (c : Nat) : Bool :=
  c == 32 || c == 9 || c == 10 || c == 13 || c == 11 || c == 12

/-- Python `str.lower()` on one code point (ASCII letters; identity elsewhere). -/
def lowerCp (c : Nat) : Nat :=
  if 65 ≤ c ∧ c ≤ 90 then c + 32 else c

/-- Python `s.lower()`. -/
def pyLower (s : PyStr) : PyStr := s.map lowerCp

/-- Drop leading whitespace, as the left half of `str.strip()`. -/
def stripStart (s : PyStr) : PyStr := s.dropWhile isSpaceCp

/-- Drop trailing whitespace, as the right half of `str.strip()`. -/
def stripEnd (s : PyStr) : PyStr := (s.reverse.dropWhile isSpaceCp).reverse

/-- Python `s.strip()`. -/
def pyStrip (s : PyStr) : PyStr := stripEnd (stripStart s)

/-- Fuel-driven worker for `pySplit`; fuel bounds the recursion depth so the
definition is structural and evaluates inside the kernel. -/
def pySplitFuel : Nat → PyStr → List PyStr
  | 0, _ => []
  | fuel + 1, s =>
    match s with
    | [] => []
    | c :: cs =>
      if isSpaceCp c then pySplitFuel fuel cs
      else (c :: cs.takeWhile (fun d => !isSpaceCp d)) ::
        pySplitFuel fuel (cs.dropWhile (fun d => !isSpaceCp d))

/-- Python `s.split()`: maximal runs of non-whitespace, whitespace-separated. -/
def pySplit (s : PyStr) : List PyStr := pySplitFuel s.length s

/-- Python `sep.join(parts)`. -/
def joinSep (sep : PyStr) : List PyStr → PyStr
  | [] => []
  | [w] => w
  | w :: x :: ws => w ++ sep ++ joinSep sep (x :: ws)

/-- Function `_normalize_str` from `src/etl.py`:
`"" if s is None else " ".join(str(s).lower().strip().split())`. -/
def _normalize_str (v : Option PyVal) : PyStr :=
  match v with
  | none => []
  | some v => joinSep [32] (pySplit (pyStrip (pyLower v.toStr)))

/-- Concatenation of a list of lists. -/
def concatAll : List (List α) → List α
  | [] => []
  | l :: ls => l ++ concatAll ls

/-- Fuel-driven worker for `chunksOf`. -/
def chunksOfAux (n : Nat) : Nat → List α → List (List α)
  | 0, _ => []
  | _, [] => []
  | fuel + 1, l => l.take n :: chunksOfAux n fuel (l.drop n)

/-- Split a list into consecutive chunks of size `n` (the last one may be
shorter), as `range(0, len(xs), n)` slicing does. -/
def chunksOf (n : Nat) (l : List α) : List (List α) := chunksOfAux n l.length l

/-!
SHA-256 (`hashlib.sha256` in `src/etl.py`), implemented over byte lists with
plain natural-number arithmetic reduced modulo `2^32`.
-/

/-- Rotate a 32-bit word right by `n`. -/
def rotr32 (x n : Nat) : Nat := ((x >>> n) ||| (x <<< (32 - n))) % 4294967296

def bsig0 (x : Nat) : Nat := rotr32 x 2 ^^^ rotr32 x 13 ^^^ rotr32 x 22

def bsig1 (x : Nat) : Nat := rotr32 x 6 ^^^ rotr32 x 11 ^^^ rotr32 x 25

def ssig0 (x : Nat) : Nat := rotr32 x 7 ^^^ rotr32 x 18 ^^^ (x >>> 3)

def ssig1 (x : Nat) : Nat := rotr32 x 17 ^^^ rotr32 x 19 ^^^ (x >>> 10)

/-- SHA-256 round constants (decimal). -/
def shaK : List Nat :=
  [1116352408, 1899447441, 3049323471, 3921009573,
   961987163, 1508970993, 2453635748, 2870763221,
   3624381080, 310598401, 607225278, 1426881987,
   1925078388, 2162078206, 2614888103, 3248222580,
   3835390401, 4022224774, 264347078, 604807628,
   770255983, 1249150122, 1555081692, 1996064986,
   2554220882, 2821834349, 2952996808, 3210313671,
   3336571891, 3584528711, 113926993, 338241895,
   666307205, 773529912, 1294757372, 1396182291,
   1695183700, 1986661051, 2177026350, 2456956037,
   2730485921, 2820302411, 3259730800, 3345764771,
   3516065817, 3600352804, 4094571909, 275423344,
   430227734, 506948616, 659060556, 883997877,
   958139571, 1322822218, 1537002063, 1747873779,
   1955562222, 2024104815, 2227730452, 2361852424,
   2428436474, 2756734187, 3204031479, 3329325298]

/-- SHA-256 initial hash state (decimal). -/
def shaH0 : List Nat :=
  [1779033703, 3144134277, 1013904242, 2773480762,
   1359893119, 2600822924, 528734635, 1541459225]

/-- Big-endian byte rendering of `v` on `n` bytes. -/
def beBytes : Nat → Nat → List Nat
  | 0, _ => []
  | n + 1, v => beBytes n (v / 256) ++ [v % 256]

/-- SHA-256 padding: append `0x80`, zeros up to 56 mod 64, and the bit
length on 8 big-endian bytes. -/
def padMessage (msg : List Nat) : List Nat :=
  msg ++ [128] ++ List.replicate ((119 - msg.length % 64) % 64) 0
      ++ beBytes 8 (msg.length * 8)

/-- Group bytes into big-endian 32-bit words. -/
def bytesToWords : List Nat → List Nat
  | b0 :: b1 :: b2 :: b3 :: rest =>
    (((b0 * 256 + b1) * 256 + b2) * 256 + b3) :: bytesToWords rest
  | _ => []

/-- Next word of the SHA-256 message schedule. -/
def nextW (w : List Nat) : Nat :=
  let n := w.length
  (w.getD (n - 16) 0 + ssig0 (w.getD (n - 15) 0) + w.getD (n - 7) 0
    + ssig1 (w.getD (n - 2) 0)) % 4294967296

/-- Extend the 16-word schedule by `k` further words. -/
def extendSchedule (w : List Nat) : Nat → List Nat
  | 0 => w
  | k + 1 => extendSchedule (w ++ [nextW w]) k

/-- One SHA-256 compression round; the state is the 8-word list
`[a, b, c, d, e, f, g, h]` and `kw` is `(K[i] + W[i]) % 2^32`. -/
def sha256Round (st : List Nat) (kw : Nat) : List Nat :=
  match st with
  | [a, b, c, d, e, f, g, h] =>
    let ch := (e &&& f) ^^^ ((e ^^^ 4294967295) &&& g)
    let t1 := (h + bsig1 e + ch + kw) % 4294967296
    let maj := (a &&& b) ^^^ (a &&& c) ^^^ (b &&& c)
    let t2 := (bsig0 a + maj) % 4294967296
    [(t1 + t2) % 4294967296, a, b, c, (d + t1) % 4294967296, e, f, g]
  | _ => st

/-- Process one 64-byte block. -/
def sha256Block (st : List Nat) (block : List Nat) : List Nat :=
  let w := extendSchedule (bytesToWords block) 48
  let kw := List.zipWith (fun k wi => (k + wi) % 4294967296) shaK w
  let st2 := kw.foldl sha256Round st
  List.zipWith (fun x y => (x + y) % 4294967296) st st2

/-- SHA-256 digest (32 bytes) of a byte list. -/
def sha256Bytes (msg : List Nat) : List Nat :=
  concatAll (((chunksOf 64 (padMessage msg)).foldl sha256Block shaH0).map (beBytes 4))

/-- UTF-8 encoding of one code point. -/
def utf8Bytes (c : Nat) : List Nat :=
  if c < 128 then [c]
  else if c < 2048 then [192 ||| (c >>> 6), 128 ||| (c &&& 63)]
  else if c < 65536 then
    [224 ||| (c >>> 12), 128 ||| ((c >>> 6) &&& 63), 128 ||| (c &&& 63)]
  else
    [240 ||| (c >>> 18), 128 ||| ((c >>> 12) &&& 63),
     128 ||| ((c >>> 6) &&& 63), 128 ||| (c &&& 63)]

/-- UTF-8 encoding of a Python string. -/
def utf8Encode (s : PyStr) : List Nat := concatAll (s.map utf8Bytes)

/-- Lower-case hex digit of a value below 16. -/
def hexDigit (n : Nat) : Nat := if n < 10 then 48 + n else 87 + n

/-- Two hex digits of a byte. -/
def byteToHex (b : Nat) : List Nat := [hexDigit (b / 16), hexDigit (b % 16)]

/-- Function `_sha256_hex` from `src/etl.py`:
`hashlib.sha256(s.encode("utf-8")).hexdigest()`. -/
def _sha256_hex (s : PyStr) : PyStr :=
  concatAll ((sha256Bytes (utf8Encode s)).map byteToHex)

/-- Fuel-driven worker for `collapseWs`. -/
def collapseWsFuel : Nat → PyStr → PyStr
  | 0, _ => []
  | fuel + 1, s =>
    match s with
    | [] => []
    | c :: cs =>
      if isSpaceCp c then 32 :: collapseWsFuel fuel (cs.dropWhile isSpaceCp)
      else c :: collapseWsFuel fuel cs

/-- Collapse each whitespace run to one space, phrased from the words of the
specification (used only to compare against the code-derived
`_normalize_str`). -/
def collapseWs (s : PyStr) : PyStr := collapseWsFuel s.length s

/-- Normalization as the specification words it: missing or empty becomes the
empty string, lower-case, collapse internal whitespace runs to a single
space, trim leading and trailing whitespace. -/
def normalizeSpec (v : Option PyVal) : PyStr :=
  match v with
  | none => []
  | some v => pyStrip (collapseWs (pyLower v.toStr))

/-- One transformed contribution row (`transform_contributions_to_df`),
fields as in `src/etl.py`; absent keys and `None`/`NaN` cells are `none`. -/
structure ContributionRow where
  committee_id : Option PyVal
  contributor_name : Option PyVal
  contributor_city : Option PyVal
  contributor_state : Option PyVal
  contributor_zip_code : Option PyVal
  contribution_date : Option PyVal
  contribution_amount : Option PyVal
  contributor_occupation : Option PyVal
  contributor_employer : Option PyVal
  deriving DecidableEq, Repr

/-- The six normalized contributor columns, in the order used by
`make_contributor_hash` in `src/etl.py`. -/
def contributorNormParts (r : ContributionRow) : List PyStr :=
  [_normalize_str r.contributor_name, _normalize_str r.contributor_city,
   _normalize_str r.contributor_state, _normalize_str r.contributor_zip_code,
   _normalize_str r.contributor_occupation, _normalize_str r.contributor_employer]

/-- Function `make_contributor_hash` from `src/etl.py`: the SHA-256 hex digest of the
pipe-joined normalized columns (124 is the code point of the pipe). -/
def make_contributor_hash (r : ContributionRow) : PyStr :=
  _sha256_hex (joinSep [124] (contributorNormParts r))

/-- Python `str(x or "")`: the `str` rendering of a truthy value, and the
empty string for a missing or falsy one. -/
def pyOrEmptyStr (v : Option PyVal) : PyStr :=
  match v with
  | none => []
  | some v => if v.truthy then v.toStr else []

/-- Function `make_contribution_hash` from `src/etl.py`: the SHA-256 hex digest of
the pipe-joined `str(row.get(k) or "")` of committee id, date, amount and
the attached contributor hash column. -/
def make_contribution_hash (r : ContributionRow) (contributorHash : Option PyVal) :
    PyStr :=
  _sha256_hex (joinSep [124]
    [pyOrEmptyStr r.committee_id, pyOrEmptyStr r.contribution_date,
     pyOrEmptyStr r.contribution_amount, pyOrEmptyStr contributorHash])

/-- A stored row of the `contributors` table. -/
structure Contributor where
  contributor_id : Nat
  name : Option PyVal
  city : Option PyVal
  state : Option PyVal
  zip_code : Option PyVal
  occupation : Option PyVal
  employer : Option PyVal
  contributor_hash : PyStr
  deriving DecidableEq, Repr

/-- A contributor row to be inserted (one row of `contributors_df`). -/
structure ContributorRecord where
  name : Option PyVal
  city : Option PyVal
  state : Option PyVal
  zip_code : Option PyVal
  occupation : Option PyVal
  employer : Option PyVal
  contributor_hash : PyStr
  deriving DecidableEq, Repr

/-- The `contributors` table with its `SERIAL` id counter. -/
structure ContributorsTable where
  rows : List Contributor
  nextId : Nat
  deriving DecidableEq, Repr

/-- Statement `INSERT INTO contributors ... ON CONFLICT (contributor_hash) DO NOTHING`
for a single row: on a hash conflict the statement is a no-op, otherwise the
row is inserted with a fresh surrogate id. -/
def insertContributorDoNothing (t : ContributorsTable) (r : ContributorRecord) :
    ContributorsTable :=
  if t.rows.any (fun s => s.contributor_hash == r.contributor_hash) then t
  else
    { rows := t.rows ++
        [{ contributor_id := t.nextId, name := r.name, city := r.city,
           state := r.state, zip_code := r.zip_code, occupation := r.occupation,
           employer := r.employer, contributor_hash := r.contributor_hash }],
      nextId := t.nextId + 1 }

/-- The contributor insert loop of `src/etl.py` (lines 196-201). -/
def upsertContributors (t : ContributorsTable) (batch : List ContributorRecord) :
    ContributorsTable :=
  batch.foldl insertContributorDoNothing t

/-- Look a stored contributor up by hash. -/
def findByHash (t : ContributorsTable) (h : PyStr) : Option Contributor :=
  t.rows.find? (fun s => s.contributor_hash == h)

/-- Query `SELECT contributor_id, contributor_hash FROM contributors WHERE
contributor_hash = ANY(%s)` followed by building the dict
`{hash: id}` (lines 204-206). -/
def selectContributorIdMap (t : ContributorsTable) (hashes : List PyStr) :
    List (PyStr × Nat) :=
  (t.rows.filter (fun s => hashes.contains s.contributor_hash)).map
    (fun s => (s.contributor_hash, s.contributor_id))

/-- Dict lookup returning `none` for a missing key (pandas `.map` yields
`NaN` there). -/
def lookupId (m : List (PyStr × Nat)) (h : PyStr) : Option Nat :=
  (m.find? (fun p => p.1 == h)).map (fun p => p.2)

/-- Pandas `drop_duplicates` on a key column: keep the first row for each key. -/
def dedupByAux (key : α → PyStr) : List α → List PyStr → List α
  | [], _ => []
  | r :: rs, seen =>
    if seen.contains (key r) then dedupByAux key rs seen
    else r :: dedupByAux key rs (key r :: seen)

/-- Pandas `df.drop_duplicates(column)`. -/
def drop_duplicates (key : α → PyStr) (l : List α) : List α :=
  dedupByAux key l []

/-- The contributor columns of a contribution row, renamed as in
`contributors_df` (line 181-188), with the attached hash column. -/
def toContributorRecord (r : ContributionRow) : ContributorRecord :=
  { name := r.contributor_name, city := r.contributor_city,
    state := r.contributor_state, zip_code := r.contributor_zip_code,
    occupation := r.contributor_occupation, employer := r.contributor_employer,
    contributor_hash := make_contributor_hash r }

/-- Frame `contributors_df`: contributor columns of the batch, de-duplicated by
hash (line 181). -/
def buildContributorsBatch (rows : List ContributionRow) : List ContributorRecord :=
  drop_duplicates (fun r => r.contributor_hash) (rows.map toContributorRecord)

/-- One row of `final_contribs` (line 246): the columns loaded into the
`contributions` table. -/
structure FinalContribution where
  committee_id : Option PyVal
  contributor_id : Option Nat
  contribution_date : Option PyVal
  contribution_amount : Option PyVal
  contribution_hash : PyStr
  deriving DecidableEq, Repr

/-- Lines 209-215: attach `contributor_id` by mapping the hash through the
id dict (missing keys become `NaN`, modelled as `none`) and compute
`contribution_hash`. -/
def toFinalContribution (m : List (PyStr × Nat)) (r : ContributionRow) :
    FinalContribution :=
  let h := make_contributor_hash r
  { committee_id := r.committee_id,
    contributor_id := lookupId m h,
    contribution_date := r.contribution_date,
    contribution_amount := r.contribution_amount,
    contribution_hash := make_contribution_hash r (some (pvOfPyStr h)) }

/-- Lines 209-218 and 246: attach ids, hash, de-duplicate by
`contribution_hash`, select the final columns. -/
def buildFinalContributions (m : List (PyStr × Nat))
    (rows : List ContributionRow) : List FinalContribution :=
  drop_duplicates (fun f => f.contribution_hash) (rows.map (toFinalContribution m))

/-- The two SQL statement shapes used by `load_df_to_db`. -/
inductive QueryKind where
  | insertOnConflictHashDoNothing
  | upsertOnConflictPk
  deriving DecidableEq, Repr

/-- Observable database operations issued by `load_df_to_db`: a chunked
`execute_values` call, or a transaction commit. -/
inductive LoadOp (α : Type) where
  | execChunk (q : QueryKind) (chunk : List α)
  | commit
  deriving DecidableEq, Repr

/-- Function `load_df_to_db` from `src/etl.py` as the sequence of database operations
it issues: nothing for an empty frame; otherwise one `execute_values` per
1000-row chunk followed by a single `conn.commit()`. -/
def load_df_to_db (table_name : String) (rows : List α) : List (LoadOp α) :=
  if rows.isEmpty then []
  else
    (chunksOf 1000 rows).map
      (LoadOp.execChunk (if table_name == "contributions" then
        QueryKind.insertOnConflictHashDoNothing else QueryKind.upsertOnConflictPk))
      ++ [LoadOp.commit]

/-- Number of commits in a trace. -/
def commitCount (ops : List (LoadOp α)) : Nat :=
  ops.countP (fun op => match op with | LoadOp.commit => true | _ => false)

/-- The chunks of the `execute_values` calls in a trace, in order. -/
def execChunks (ops : List (LoadOp α)) : List (List α) :=
  ops.filterMap (fun op =>
    match op with
    | LoadOp.execChunk _ c => some c
    | LoadOp.commit => none)

/-- The pagination envelope of an FEC API response; `none` fields are keys
missing from the JSON object. -/
structure Pagination where
  page : Option Int
  pages : Option Int
  last_indexes : Option (List (PyStr × PyVal))
  deriving DecidableEq, Repr

/-- One JSON response of the upstream API. -/
structure ApiResponse (ρ : Type) where
  results : Option (List ρ)
  pagination : Option Pagination
  deriving DecidableEq, Repr

/-- Python errors the pagination loop can raise.  `noMoreResponses` is the
mocked upstream running out of pages while the loop still wants one. -/
inductive FetchError where
  | typeError
  | noMoreResponses
  deriving DecidableEq, Repr

/-- Request parameters maintained by `_fetch_all_pages`. -/
structure FetchParams where
  page : Nat
  per_page : Nat
  last_index : Option PyVal
  last_contribution_receipt_date : Option PyVal
  deriving DecidableEq, Repr

/-- Dict lookup by key. -/
def lookupDict (d : List (PyStr × PyVal)) (k : PyStr) : Option PyVal :=
  (d.find? (fun p => p.1 == k)).map (fun p => p.2)

/-- Truthiness of `pagination.get("last_indexes")`: `None` and the empty
dict are falsy. -/
def truthyDict : Option (List (PyStr × PyVal)) → Bool
  | none => false
  | some l => !l.isEmpty

/-- Python `a >= b` on two optional ints: comparing `None` raises
`TypeError`. -/
def pyGeOpt : Option Int → Option Int → Except FetchError Bool
  | some a, some b => Except.ok (decide (a ≥ b))
  | _, _ => Except.error FetchError.typeError

/-- Value of `data.get("pagination", ...)` when the key is missing. -/
def emptyPagination : Pagination := ⟨none, none, none⟩

/-- The loop exit test of `_fetch_all_pages` (line 52):
`if not last_indexes or pagination.get("page") >= pagination.get("pages")`,
with Python short-circuiting: a falsy cursor breaks without comparing, and
a comparison against a missing field raises `TypeError`. -/
def pageBreak (r : ApiResponse ρ) : Except FetchError Bool :=
  let pag := r.pagination.getD emptyPagination
  if truthyDict pag.last_indexes then pyGeOpt pag.page pag.pages
  else Except.ok true

/-- Lines 55-58: copy the cursor fields into the request parameters. -/
def updateParams (p : FetchParams) (li : List (PyStr × PyVal)) : FetchParams :=
  let p1 := { p with last_index := lookupDict li (pystr "last_index") }
  if li.any (fun kv => kv.1 == pystr "last_contribution_receipt_date") then
    { p1 with last_contribution_receipt_date :=
        lookupDict li (pystr "last_contribution_receipt_date") }
  else p1

/-- The body of the `while True` loop of `_fetch_all_pages`, driven by the
list of responses the upstream returns to successive `session.get` calls.
The accumulated results and the request count are threaded through; the
request parameters are updated as in the code (they do not influence a
mocked response list). -/
def fetchAllPagesAux : List (ApiResponse ρ) → FetchParams → List ρ → Nat →
    Except FetchError (List ρ × Nat)
  | [], _, _, _ => Except.error FetchError.noMoreResponses
  | r :: rs, p, acc, n =>
    let acc2 := acc ++ r.results.getD []
    match pageBreak r with
    | Except.error e => Except.error e
    | Except.ok true => Except.ok (acc2, n + 1)
    | Except.ok false =>
      fetchAllPagesAux rs
        (updateParams p ((r.pagination.getD emptyPagination).last_indexes.getD []))
        acc2 (n + 1)

/-- Function `_fetch_all_pages` from `src/fec_api.py`, returning the flattened
results together with the number of requests issued. -/
def _fetch_all_pages (resps : List (ApiResponse ρ)) :
    Except FetchError (List ρ × Nat) :=
  fetchAllPagesAux resps ⟨1, 100, none, none⟩ [] 0

/-- One raw candidate JSON record as read by `transform_candidates_to_df`;
`election_years` is `none` when the key is absent, and otherwise holds the
stored list. -/
structure CandidateJson where
  candidate_id : Option PyVal
  name : Option PyVal
  party : Option PyVal
  state : Option PyVal
  office : Option PyVal
  election_years : Option (List (Option PyVal))
  deriving DecidableEq, Repr

/-- Python errors the candidate transform can raise. -/
inductive PyError where
  | indexError
  deriving DecidableEq, Repr

/-- One row of the candidates data frame. -/
structure CandidateRow where
  candidate_id : Option PyVal
  name : Option PyVal
  party : Option PyVal
  state : Option PyVal
  office : Option PyVal
  election_year : Option PyVal
  deriving DecidableEq, Repr

/-- Python `candidate.get("election_years", [None])[0]`: the default list `[None]`
yields `None`; a present empty list raises `IndexError`. -/
def electionYearHead : Option (List (Option PyVal)) → Except PyError (Option PyVal)
  | none => Except.ok none
  | some [] => Except.error PyError.indexError
  | some (y :: _) => Except.ok y

/-- The row-building loop of `transform_candidates_to_df`. -/
def transformCandidatesList : List CandidateJson → Except PyError (List CandidateRow)
  | [] => Except.ok []
  | c :: cs =>
    match electionYearHead c.election_years with
    | Except.error e => Except.error e
    | Except.ok y =>
      match transformCandidatesList cs with
      | Except.error e => Except.error e
      | Except.ok rest =>
        Except.ok (CandidateRow.mk c.candidate_id c.name c.party c.state
          c.office y :: rest)

/-- Function `transform_candidates_to_df` from `src/etl.py`; the argument is
`candidates_data.get("results", [])`. -/
def transform_candidates_to_df (results : Option (List CandidateJson)) :
    Except PyError (List CandidateRow) :=
  transformCandidatesList (results.getD [])

deriving instance DecidableEq for Except

/-- A nonzero Python float: truthy, rendered by `str`. -/
def pvFloat (s : String) : PyVal := ⟨pystr s, true⟩

/-- A contribution row whose amount is the float `0.0` (claim C4). -/
def rowC4 : ContributionRow :=
  ContributionRow.mk (some (pvStr "C1")) none none none none
    (some (pvStr "2024-01-01")) (some pvFloatZero) none none

/-- Contributor fields `name = "a|b"`, `city = "c"` (claim C10). -/
def rowC10a : ContributionRow :=
  ContributionRow.mk none (some (pvStr "a|b")) (some (pvStr "c")) none none
    none none none none

/-- Contributor fields `name = "a"`, `city = "b|c"` (claim C10). -/
def rowC10b : ContributionRow :=
  ContributionRow.mk none (some (pvStr "a")) (some (pvStr "b|c")) none none
    none none none none

/-- A candidate record whose `election_years` key holds the empty list. -/
def candEmptyYears : CandidateJson :=
  CandidateJson.mk (some (pvStr "C001")) (some (pvStr "Alice")) none none none
    (some [])

/-- A candidate record with no `election_years` key. -/
def candNoYears : CandidateJson :=
  CandidateJson.mk (some (pvStr "C002")) (some (pvStr "Bob")) none none none none

/-- A concrete contribution row used for claim C2. -/
def rowC2 : ContributionRow :=
  ContributionRow.mk (some (pvStr "C9")) (some (pvStr "Jane Doe"))
    (some (pvStr "Somewhere")) (some (pvStr "CA")) (some (pvStr "90210"))
    (some (pvStr "2024-01-01")) (some (pvFloat "250.0"))
    (some (pvStr "Engineer")) (some (pvStr "ACME"))

/-- Forget the attached `contributor_id` of a final row. -/
def eraseContributorId (f : FinalContribution) : FinalContribution :=
  { f with contributor_id := none }

/-- A stored contributor with surrogate id 7 and hash `"h1"`. -/
def storedC1 : Contributor :=
  Contributor.mk 7 (some (pvStr "Old Name")) none none none none none (pystr "h1")

/-- A contributors table already holding `storedC1`. -/
def tableC1 : ContributorsTable := ContributorsTable.mk [storedC1] 8

/-- An incoming contributor row with the same hash but a new name. -/
def recNewC1 : ContributorRecord :=
  ContributorRecord.mk (some (pvStr "New Name")) none none none none none
    (pystr "h1")

/-- A response whose envelope has a nonempty cursor but no `page`/`pages`
fields. -/
def respC3 : ApiResponse Nat :=
  ApiResponse.mk (some [])
    (some (Pagination.mk none none (some [(pystr "last_index", pvStr "5")])))

/-- A response with no pagination envelope at all. -/
def respFalsyCursor : ApiResponse Nat := ApiResponse.mk (some [3]) none

example : _normalize_str (some (pvStr "  JOHN  DOE ")) = pystr "john doe" := by decide
example : _normalize_str none = pystr "" := by decide

example :
    _sha256_hex (pystr "") =
      pystr "e3b0c44298fc1c149afbf4c8996fb92427ae41e4649b934ca495991b7852b855" := by
  decide

example :
    _sha256_hex (pystr "abc") =
      pystr "ba7816bf8f01cfea414140de5dae2223b00361a396177a9cb410ff61f20015ad" := by
  decide

/-!
Equational theory of `pySplit` and the other string primitives, used for the
normalization claims.
-/

theorem pySplitFuel_nil (f : Nat) : pySplitFuel f [] = [] := by
  cases f <;> rfl

theorem pySplitFuel_congr :
    ∀ (f1 f2 : Nat) (s : PyStr), s.length ≤ f1 → s.length ≤ f2 →
      pySplitFuel f1 s = pySplitFuel f2 s := by
  intro f1
  induction f1 with
  | zero =>
    intro f2 s h1 _
    have hs : s = [] := List.length_eq_zero.mp (Nat.le_zero.mp h1)
    subst hs
    rw [pySplitFuel_nil, pySplitFuel_nil]
  | succ f1 ih =>
    intro f2 s h1 h2
    cases s with
    | nil => rw [pySplitFuel_nil, pySplitFuel_nil]
    | cons c cs =>
      cases f2 with
      | zero => simp at h2
      | succ f2 =>
        have hlen : cs.length ≤ f1 := by simp at h1; omega
        have hlen2 : cs.length ≤ f2 := by simp at h2; omega
        have hdrop : (cs.dropWhile (fun d => !isSpaceCp d)).length ≤ cs.length :=
          (List.dropWhile_sublist (fun d => !isSpaceCp d) (l := cs)).length_le
        by_cases hc : isSpaceCp c
        · simp only [pySplitFuel, hc, if_true]
          exact ih f2 cs hlen hlen2
        · simp only [pySplitFuel, hc, Bool.false_eq_true, if_false]
          rw [ih f2 _ (le_trans hdrop hlen) (le_trans hdrop hlen2)]

theorem pySplit_nil : pySplit [] = [] := rfl

theorem pySplit_cons_space {c : Nat} (cs : PyStr) (h : isSpaceCp c = true) :
    pySplit (c :: cs) = pySplit cs := by
  show pySplitFuel (c :: cs).length (c :: cs) = pySplit cs
  simp only [List.length_cons, pySplitFuel, h, if_true]
  rfl

theorem pySplit_cons_nonspace {c : Nat} (cs : PyStr) (h : isSpaceCp c = false) :
    pySplit (c :: cs) =
      (c :: cs.takeWhile (fun d => !isSpaceCp d)) ::
        pySplit (cs.dropWhile (fun d => !isSpaceCp d)) := by
  show pySplitFuel (c :: cs).length (c :: cs) = _
  simp only [List.length_cons, pySplitFuel, h, Bool.false_eq_true, if_false]
  rw [pySplitFuel_congr cs.length (cs.dropWhile (fun d => !isSpaceCp d)).length _
    (List.dropWhile_sublist (fun d => !isSpaceCp d) (l := cs)).length_le (Nat.le_refl _)]
  rfl

/-- Removing leading whitespace does not change the split. -/
theorem pySplit_dropWhile_space (s : PyStr) :
    pySplit (s.dropWhile isSpaceCp) = pySplit s := by
  induction s with
  | nil => rfl
  | cons c cs ih =>
    by_cases hc : isSpaceCp c
    · rw [List.dropWhile_cons, if_pos hc, ih, pySplit_cons_space cs hc]
    · rw [List.dropWhile_cons, if_neg hc]

/-- Every word produced by `pySplit` is nonempty and whitespace-free. -/
theorem pySplit_words_sound :
    ∀ (n : Nat) (s : PyStr), s.length ≤ n → ∀ w ∈ pySplit s,
      w ≠ [] ∧ ∀ c ∈ w, isSpaceCp c = false := by
  intro n
  induction n with
  | zero =>
    intro s h1 w hw
    have hs : s = [] := List.length_eq_zero.mp (Nat.le_zero.mp h1)
    subst hs
    simp [pySplit_nil] at hw
  | succ n ih =>
    intro s h1 w hw
    cases s with
    | nil => simp [pySplit_nil] at hw
    | cons c cs =>
      have hlen : cs.length ≤ n := by simp at h1; omega
      by_cases hc : isSpaceCp c
      · rw [pySplit_cons_space cs hc] at hw
        exact ih cs hlen w hw
      · rw [pySplit_cons_nonspace cs (by simpa using hc)] at hw
        rcases List.mem_cons.mp hw with hw | hw
        · subst hw
          refine ⟨by simp, ?_⟩
          intro d hd
          rcases List.mem_cons.mp hd with hd | hd
          · subst hd; simpa using hc
          · simpa using List.mem_takeWhile_imp hd
        · have hdl : (cs.dropWhile (fun d => !isSpaceCp d)).length ≤ n :=
            le_trans (List.dropWhile_sublist (fun d => !isSpaceCp d) (l := cs)).length_le hlen
          exact ih _ hdl w hw

/-- Fact: `takeWhile` runs through a prefix on which the predicate holds. -/
theorem takeWhile_append_all {p : α → Bool} :
    ∀ (u r : List α), (∀ c ∈ u, p c = true) →
      (u ++ r).takeWhile p = u ++ r.takeWhile p := by
  intro u
  induction u with
  | nil => intro r _; rfl
  | cons a u ih =>
    intro r hall
    rw [List.cons_append, List.takeWhile_cons, if_pos (hall a (by simp)),
      ih r (fun c hc => hall c (by simp [hc]))]
    rfl

/-- Fact: `dropWhile` skips a prefix on which the predicate holds. -/
theorem dropWhile_append_all {p : α → Bool} :
    ∀ (u r : List α), (∀ c ∈ u, p c = true) →
      (u ++ r).dropWhile p = r.dropWhile p := by
  intro u
  induction u with
  | nil => intro r _; rfl
  | cons a u ih =>
    intro r hall
    rw [List.cons_append, List.dropWhile_cons, if_pos (hall a (by simp)),
      ih r (fun c hc => hall c (by simp [hc]))]

/-- A string of whitespace splits to nothing. -/
theorem pySplit_all_space :
    ∀ (v : PyStr), (∀ c ∈ v, isSpaceCp c = true) → pySplit v = [] := by
  intro v
  induction v with
  | nil => intro _; rfl
  | cons c cs ih =>
    intro hall
    rw [pySplit_cons_space cs (hall c (by simp))]
    exact ih (fun d hd => hall d (by simp [hd]))

/-- Trailing whitespace does not change the split. -/
theorem pySplit_append_space :
    ∀ (n : Nat) (u v : PyStr), u.length ≤ n → (∀ c ∈ v, isSpaceCp c = true) →
      pySplit (u ++ v) = pySplit u := by
  intro n
  induction n with
  | zero =>
    intro u v h1 hall
    have hu : u = [] := List.length_eq_zero.mp (Nat.le_zero.mp h1)
    subst hu
    rw [List.nil_append, pySplit_nil, pySplit_all_space v hall]
  | succ n ih =>
    intro u v h1 hall
    cases u with
    | nil => rw [List.nil_append, pySplit_nil, pySplit_all_space v hall]
    | cons c cs =>
      have hlen : cs.length ≤ n := by simp at h1; omega
      by_cases hc : isSpaceCp c
      · rw [List.cons_append, pySplit_cons_space _ hc, pySplit_cons_space _ hc]
        exact ih cs v hlen hall
      · have hc' : isSpaceCp c = false := by simpa using hc
        have hvtk : v.takeWhile (fun d => !isSpaceCp d) = [] := by
          cases v with
          | nil => rfl
          | cons d ds =>
            rw [List.takeWhile_cons, if_neg (by simp [hall d (by simp)])]
        have hvdp : v.dropWhile (fun d => !isSpaceCp d) = v := by
          cases v with
          | nil => rfl
          | cons d ds =>
            rw [List.dropWhile_cons, if_neg (by simp [hall d (by simp)])]
        rw [List.cons_append, pySplit_cons_nonspace _ hc', pySplit_cons_nonspace _ hc']
        have htk : (cs ++ v).takeWhile (fun d => !isSpaceCp d)
            = cs.takeWhile (fun d => !isSpaceCp d) := by
          rw [List.takeWhile_append]
          split
          · next hfull =>
              have : cs.takeWhile (fun d => !isSpaceCp d) = cs :=
                List.Sublist.eq_of_length (List.takeWhile_sublist _) hfull
              rw [hvtk, List.append_nil, this]
          · rfl
        have hdp : pySplit ((cs ++ v).dropWhile (fun d => !isSpaceCp d))
            = pySplit (cs.dropWhile (fun d => !isSpaceCp d)) := by
          rw [List.dropWhile_append]
          split
          · next hempty =>
              rw [List.isEmpty_iff.mp hempty, pySplit_nil, hvdp,
                pySplit_all_space v hall]
          · exact ih _ v (le_trans (List.dropWhile_sublist (fun d => !isSpaceCp d) (l := cs)).length_le hlen) hall
        rw [htk, hdp]

/-- A predicate that holds on all of `u` takes all of `u`. -/
theorem takeWhile_all {p : α → Bool} (u : List α) (h : ∀ c ∈ u, p c = true) :
    u.takeWhile p = u := by
  have := takeWhile_append_all (p := p) u [] h
  simpa using this

/-- A predicate that holds on all of `u` drops all of `u`. -/
theorem dropWhile_all {p : α → Bool} (u : List α) (h : ∀ c ∈ u, p c = true) :
    u.dropWhile p = [] := by
  have := dropWhile_append_all (p := p) u [] h
  simpa using this

/-- Splitting a space-joined list of nonempty whitespace-free words recovers
the words. -/
theorem pySplit_joinSep :
    ∀ (ws : List PyStr), (∀ w ∈ ws, w ≠ [] ∧ ∀ c ∈ w, isSpaceCp c = false) →
      pySplit (joinSep [32] ws) = ws := by
  intro ws
  induction ws with
  | nil => intro _; rfl
  | cons w ws ih =>
    intro hall
    obtain ⟨hw, hwc⟩ := hall w (by simp)
    cases w with
    | nil => exact absurd rfl hw
    | cons c w' =>
      have hc : isSpaceCp c = false := hwc c (by simp)
      have hw' : ∀ d ∈ w', (fun d => !isSpaceCp d) d = true := by
        intro d hd; simp [hwc d (by simp [hd])]
      cases ws with
      | nil =>
        show pySplit (c :: w') = [c :: w']
        rw [pySplit_cons_nonspace _ hc, takeWhile_all w' hw', dropWhile_all w' hw',
          pySplit_nil]
      | cons x ws' =>
        show pySplit ((c :: w') ++ [32] ++ joinSep [32] (x :: ws')) = _
        rw [List.append_assoc, List.cons_append, pySplit_cons_nonspace _ hc,
          takeWhile_append_all w' _ hw', dropWhile_append_all w' _ hw']
        have h32 : isSpaceCp 32 = true := rfl
        rw [show ([32] ++ joinSep [32] (x :: ws') : PyStr)
            = 32 :: joinSep [32] (x :: ws') from rfl]
        rw [List.takeWhile_cons, if_neg (by simp [h32]), List.append_nil,
          List.dropWhile_cons, if_neg (by simp [h32]),
          pySplit_cons_space _ h32,
          ih (fun v hv => hall v (by simp [hv]))]

/-- Trailing-whitespace removal does not change the split. -/
theorem pySplit_stripEnd (t : PyStr) : pySplit (stripEnd t) = pySplit t := by
  have heq : stripEnd t ++ (t.reverse.takeWhile isSpaceCp).reverse = t := by
    rw [stripEnd, ← List.reverse_append, List.takeWhile_append_dropWhile,
      List.reverse_reverse]
  have hsp : ∀ c ∈ (t.reverse.takeWhile isSpaceCp).reverse, isSpaceCp c = true := by
    intro c hc
    exact List.mem_takeWhile_imp (List.mem_reverse.mp hc)
  calc pySplit (stripEnd t)
      = pySplit (stripEnd t ++ (t.reverse.takeWhile isSpaceCp).reverse) :=
        (pySplit_append_space (stripEnd t).length _ _ le_rfl hsp).symm
    _ = pySplit t := by rw [heq]

/-- Python `str.strip()` does not change the split. -/
theorem pySplit_pyStrip (s : PyStr) : pySplit (pyStrip s) = pySplit s := by
  rw [pyStrip, pySplit_stripEnd, stripStart, pySplit_dropWhile_space]

/-- Function `_normalize_str` with the redundant `strip()` removed. -/
theorem normalize_str_some (v : PyVal) :
    _normalize_str (some v) = joinSep [32] (pySplit (pyLower v.toStr)) := by
  show joinSep [32] (pySplit (pyStrip (pyLower v.toStr))) = _
  rw [pySplit_pyStrip]

theorem lowerCp_idem (c : Nat) : lowerCp (lowerCp c) = lowerCp c := by
  unfold lowerCp
  by_cases h : 65 ≤ c ∧ c ≤ 90
  · rw [if_pos h, if_neg (by omega)]
  · rw [if_neg h, if_neg h]

theorem isSpaceCp_lowerCp (c : Nat) : isSpaceCp (lowerCp c) = isSpaceCp c := by
  unfold lowerCp
  by_cases h : 65 ≤ c ∧ c ≤ 90
  · rw [if_pos h]
    have h1 : isSpaceCp (c + 32) = false := by simp [isSpaceCp]; omega
    have h2 : isSpaceCp c = false := by simp [isSpaceCp]; omega
    rw [h1, h2]
  · rw [if_neg h]

theorem notSpace_comp_lower :
    ((fun d => !isSpaceCp d) ∘ lowerCp) = fun d : Nat => !isSpaceCp d := by
  funext d
  simp [Function.comp, isSpaceCp_lowerCp]

/-- Lower-casing commutes with splitting. -/
theorem pySplit_map_lower :
    ∀ (n : Nat) (s : PyStr), s.length ≤ n →
      pySplit (s.map lowerCp) = (pySplit s).map (List.map lowerCp) := by
  intro n
  induction n with
  | zero =>
    intro s h1
    have hs : s = [] := List.length_eq_zero.mp (Nat.le_zero.mp h1)
    subst hs; rfl
  | succ n ih =>
    intro s h1
    cases s with
    | nil => rfl
    | cons c cs =>
      have hlen : cs.length ≤ n := by simp at h1; omega
      rw [List.map_cons]
      by_cases hc : isSpaceCp c
      · rw [pySplit_cons_space _ (by rw [isSpaceCp_lowerCp]; exact hc),
          pySplit_cons_space _ hc]
        exact ih cs hlen
      · have hc' : isSpaceCp c = false := by simpa using hc
        have hcl : isSpaceCp (lowerCp c) = false := by
          rw [isSpaceCp_lowerCp]; exact hc'
        rw [pySplit_cons_nonspace _ hcl, pySplit_cons_nonspace _ hc',
          List.takeWhile_map, List.dropWhile_map, notSpace_comp_lower,
          ih _ (le_trans
            (List.dropWhile_sublist (fun d => !isSpaceCp d) (l := cs)).length_le hlen)]
        simp [List.map_cons]

/-- Lower-casing commutes with space-joining. -/
theorem joinSep_map_lower :
    ∀ (ws : List PyStr),
      joinSep [32] (ws.map (List.map lowerCp)) = (joinSep [32] ws).map lowerCp := by
  intro ws
  induction ws with
  | nil => rfl
  | cons w ws ih =>
    cases ws with
    | nil => rfl
    | cons x ws' =>
      have hstep : ∀ (a b : PyStr) (rest : List PyStr),
          joinSep [32] (a :: b :: rest) = a ++ [32] ++ joinSep [32] (b :: rest) := by
        intro a b rest; rfl
      rw [List.map_cons, List.map_cons, hstep, hstep, ← List.map_cons, ih,
        List.map_append, List.map_append]
      rfl

/-- Lower-casing is idempotent on strings. -/
theorem pyLower_idem (s : PyStr) : pyLower (pyLower s) = pyLower s := by
  unfold pyLower
  rw [List.map_map]
  exact List.map_congr_left (fun c _ => lowerCp_idem c)

/-- The normalized form is already lower-case. -/
theorem pyLower_normalize (v : PyVal) :
    pyLower (_normalize_str (some v)) = _normalize_str (some v) := by
  rw [normalize_str_some]
  unfold pyLower
  rw [← joinSep_map_lower, ← pySplit_map_lower (v.toStr.map lowerCp).length _ le_rfl]
  show joinSep [32] (pySplit (pyLower (pyLower v.toStr))) = _
  rw [pyLower_idem]
  rfl

/-- Claim C8: normalization is idempotent and maps `None` to the empty
string: `_normalize_str` applied to its own output is the identity, and
`_normalize_str(None) = ""`. -/
theorem claim_c8_normalize_idempotent (s : PyStr) :
    _normalize_str (some (pvOfPyStr (_normalize_str (some (pvOfPyStr s))))) =
        _normalize_str (some (pvOfPyStr s))
      ∧ _normalize_str none = [] := by
  constructor
  · have hws := pySplit_words_sound (pyLower s).length (pyLower s) le_rfl
    rw [normalize_str_some, normalize_str_some]
    show joinSep [32] (pySplit (pyLower (joinSep [32] (pySplit (pyLower s))))) = _
    rw [show pyLower (joinSep [32] (pySplit (pyLower s)))
        = joinSep [32] (pySplit (pyLower s)) from ?_]
    · rw [pySplit_joinSep _ hws]
      rfl
    · have := pyLower_normalize (pvOfPyStr s)
      rw [normalize_str_some] at this
      exact this
  · rfl

theorem collapseWsFuel_nil (f : Nat) : collapseWsFuel f [] = [] := by
  cases f <;> rfl

theorem collapseWsFuel_congr :
    ∀ (f1 f2 : Nat) (s : PyStr), s.length ≤ f1 → s.length ≤ f2 →
      collapseWsFuel f1 s = collapseWsFuel f2 s := by
  intro f1
  induction f1 with
  | zero =>
    intro f2 s h1 _
    have hs : s = [] := List.length_eq_zero.mp (Nat.le_zero.mp h1)
    subst hs
    rw [collapseWsFuel_nil, collapseWsFuel_nil]
  | succ f1 ih =>
    intro f2 s h1 h2
    cases s with
    | nil => rw [collapseWsFuel_nil, collapseWsFuel_nil]
    | cons c cs =>
      cases f2 with
      | zero => simp at h2
      | succ f2 =>
        have hlen : cs.length ≤ f1 := by simp at h1; omega
        have hlen2 : cs.length ≤ f2 := by simp at h2; omega
        have hdrop : (cs.dropWhile isSpaceCp).length ≤ cs.length :=
          (List.dropWhile_sublist isSpaceCp (l := cs)).length_le
        by_cases hc : isSpaceCp c
        · simp only [collapseWsFuel, hc, if_true]
          rw [ih f2 _ (le_trans hdrop hlen) (le_trans hdrop hlen2)]
        · simp only [collapseWsFuel, hc, Bool.false_eq_true, if_false]
          rw [ih f2 cs hlen hlen2]

theorem collapseWs_nil : collapseWs [] = [] := rfl

theorem collapseWs_cons_space {c : Nat} (cs : PyStr) (h : isSpaceCp c = true) :
    collapseWs (c :: cs) = 32 :: collapseWs (cs.dropWhile isSpaceCp) := by
  show collapseWsFuel (c :: cs).length (c :: cs) = _
  simp only [List.length_cons, collapseWsFuel, h, if_true]
  rw [collapseWsFuel_congr cs.length (cs.dropWhile isSpaceCp).length _
    (List.dropWhile_sublist isSpaceCp (l := cs)).length_le (Nat.le_refl _)]
  rfl

theorem collapseWs_cons_nonspace {c : Nat} (cs : PyStr) (h : isSpaceCp c = false) :
    collapseWs (c :: cs) = c :: collapseWs cs := by
  show collapseWsFuel (c :: cs).length (c :: cs) = _
  simp only [List.length_cons, collapseWsFuel, h, Bool.false_eq_true, if_false]
  rfl

/-- Fact: `collapseWs` passes a whitespace-free word through unchanged. -/
theorem collapseWs_word :
    ∀ (w t : PyStr), (∀ c ∈ w, isSpaceCp c = false) →
      collapseWs (w ++ t) = w ++ collapseWs t := by
  intro w
  induction w with
  | nil => intro t _; rfl
  | cons c w ih =>
    intro t hall
    rw [List.cons_append, collapseWs_cons_nonspace _ (hall c (by simp)),
      ih t (fun d hd => hall d (by simp [hd]))]
    rfl

/-- Fact: `dropWhile` leaves a list whose head fails the predicate. -/
theorem head_dropWhile_false {p : α → Bool} :
    ∀ (l : List α) (c : α), (l.dropWhile p).head? = some c → p c = false := by
  intro l
  induction l with
  | nil => intro c h; simp at h
  | cons d ds ih =>
    intro c h
    rw [List.dropWhile_cons] at h
    by_cases hd : p d
    · rw [if_pos hd] at h
      exact ih c h
    · rw [if_neg hd] at h
      simp at h
      rw [← h]
      simpa using hd

/-- Fact: `collapseWs` keeps the head nonspace when the input head is nonspace. -/
theorem head_collapseWs_false :
    ∀ (u : PyStr), (∀ c, u.head? = some c → isSpaceCp c = false) →
      ∀ c, (collapseWs u).head? = some c → isSpaceCp c = false := by
  intro u hu c hc
  cases u with
  | nil => simp [collapseWs_nil] at hc
  | cons e es =>
    have he : isSpaceCp e = false := hu e rfl
    rw [collapseWs_cons_nonspace _ he] at hc
    simp at hc
    rw [← hc]
    exact he

/-- Fact: `stripStart` is the identity on a list whose head is nonspace. -/
theorem stripStart_of_head (t : PyStr)
    (h : ∀ c, t.head? = some c → isSpaceCp c = false) :
    stripStart t = t := by
  cases t with
  | nil => rfl
  | cons c cs =>
    show (c :: cs).dropWhile isSpaceCp = c :: cs
    rw [List.dropWhile_cons, if_neg (by simp [h c rfl])]

/-- Fact: `dropWhile` is the identity on a whitespace-free list. -/
theorem dropWhile_nonspace_id (u : PyStr) (h : ∀ c ∈ u, isSpaceCp c = false) :
    u.dropWhile isSpaceCp = u := by
  cases u with
  | nil => rfl
  | cons c cs => rw [List.dropWhile_cons, if_neg (by simp [h c (by simp)])]

/-- Fact: `stripEnd` skips over a whitespace-free prefix. -/
theorem stripEnd_append_word (w X : PyStr) (h : ∀ c ∈ w, isSpaceCp c = false) :
    stripEnd (w ++ X) = w ++ stripEnd X := by
  show ((w ++ X).reverse.dropWhile isSpaceCp).reverse = _
  rw [List.reverse_append, List.dropWhile_append]
  split
  · next hempty =>
      have hXnil : stripEnd X = [] := by
        show (X.reverse.dropWhile isSpaceCp).reverse = []
        rw [List.isEmpty_iff.mp hempty]
        rfl
      rw [dropWhile_nonspace_id w.reverse
          (fun c hc => h c (List.mem_reverse.mp hc)),
        List.reverse_reverse, hXnil, List.append_nil]
  · next hne =>
      rw [List.reverse_append, List.reverse_reverse]
      rfl

/-- Fact: `stripEnd` on a leading space keeps it only when something nonspace
remains. -/
theorem stripEnd_cons_space {c : Nat} (X : PyStr) (h : isSpaceCp c = true) :
    stripEnd (c :: X) = if stripEnd X = [] then [] else c :: stripEnd X := by
  show ((c :: X).reverse.dropWhile isSpaceCp).reverse = _
  rw [show (c :: X).reverse = X.reverse ++ [c] from by simp,
    List.dropWhile_append]
  have hone : ([c] : PyStr).dropWhile isSpaceCp = [] := by
    rw [List.dropWhile_cons, if_pos (by simp [h])]
    rfl
  by_cases hempty : (X.reverse.dropWhile isSpaceCp).isEmpty
  · rw [if_pos hempty, hone]
    have hXnil : stripEnd X = [] := by
      show (X.reverse.dropWhile isSpaceCp).reverse = []
      rw [List.isEmpty_iff.mp hempty]
      rfl
    rw [if_pos hXnil]
    rfl
  · rw [if_neg hempty, List.reverse_append]
    have hXne : ¬stripEnd X = [] := by
      intro hcon
      have : X.reverse.dropWhile isSpaceCp = [] := by
        have := congrArg List.reverse hcon
        simpa [stripEnd] using this
      simp [this] at hempty
    rw [if_neg hXne]
    rfl

/-- Space-joining a nonempty list of nonempty words is nonempty. -/
theorem joinSep_ne_nil (w : PyStr) (ws : List PyStr) (h : w ≠ []) :
    joinSep [32] (w :: ws) ≠ [] := by
  cases ws with
  | nil => exact h
  | cons x ws' =>
    show w ++ [32] ++ joinSep [32] (x :: ws') ≠ []
    simp [h]

/-- Key bridge: trimming the collapsed string equals joining the split
words. -/
theorem pyStrip_collapseWs :
    ∀ (n : Nat) (t : PyStr), t.length ≤ n →
      pyStrip (collapseWs t) = joinSep [32] (pySplit t) := by
  intro n
  induction n with
  | zero =>
    intro t h1
    have ht : t = [] := List.length_eq_zero.mp (Nat.le_zero.mp h1)
    subst ht
    rfl
  | succ n ih =>
    intro t h1
    cases t with
    | nil => rfl
    | cons c cs =>
      have hlen : cs.length ≤ n := by simp at h1; omega
      by_cases hc : isSpaceCp c
      · have hdl : (cs.dropWhile isSpaceCp).length ≤ n :=
          le_trans (List.dropWhile_sublist isSpaceCp (l := cs)).length_le hlen
        rw [pySplit_cons_space cs hc, ← pySplit_dropWhile_space cs, ← ih _ hdl,
          collapseWs_cons_space cs hc]
        show stripEnd (stripStart (32 :: collapseWs (cs.dropWhile isSpaceCp))) = _
        rw [show stripStart (32 :: collapseWs (cs.dropWhile isSpaceCp))
            = stripStart (collapseWs (cs.dropWhile isSpaceCp)) from by
          show List.dropWhile isSpaceCp (32 :: _) = _
          rw [List.dropWhile_cons, if_pos (by decide)]
          rfl]
        rfl
      · have hc2 : isSpaceCp c = false := by simpa using hc
        have hwall : ∀ d ∈ c :: cs.takeWhile (fun d => !isSpaceCp d),
            isSpaceCp d = false := by
          intro d hd
          rcases List.mem_cons.mp hd with hd | hd
          · subst hd; exact hc2
          · simpa using List.mem_takeWhile_imp hd
        have hsplit : (c :: cs)
            = (c :: cs.takeWhile (fun d => !isSpaceCp d))
              ++ cs.dropWhile (fun d => !isSpaceCp d) := by
          rw [List.cons_append, List.takeWhile_append_dropWhile]
        have e1 : collapseWs (c :: cs)
            = (c :: cs.takeWhile (fun d => !isSpaceCp d))
              ++ collapseWs (cs.dropWhile (fun d => !isSpaceCp d)) := by
          conv_lhs => rw [hsplit]
          exact collapseWs_word _ _ hwall
        have e2 : pyStrip (collapseWs (c :: cs))
            = (c :: cs.takeWhile (fun d => !isSpaceCp d))
              ++ stripEnd (collapseWs (cs.dropWhile (fun d => !isSpaceCp d))) := by
          rw [pyStrip, e1, stripStart_of_head _ (by
              intro d hd
              rw [List.cons_append] at hd
              simp at hd
              subst hd
              exact hc2),
            stripEnd_append_word _ _ hwall]
        rw [e2, pySplit_cons_nonspace cs hc2]
        cases hdp : cs.dropWhile (fun d => !isSpaceCp d) with
        | nil =>
          simp [collapseWs_nil, pySplit_nil, joinSep, stripEnd]
        | cons d ds =>
          have hd2 : isSpaceCp d = true := by
            have hh := head_dropWhile_false (p := fun d => !isSpaceCp d) cs d
              (by rw [hdp]; rfl)
            simpa using hh
          have hlen2 : (ds.dropWhile isSpaceCp).length ≤ n := by
            have l1 : (d :: ds).length ≤ cs.length := by
              rw [← hdp]
              exact (List.dropWhile_sublist (fun d => !isSpaceCp d) (l := cs)).length_le
            have l2 := (List.dropWhile_sublist isSpaceCp (l := ds)).length_le
            simp at l1
            omega
          have hu : ∀ e, ((ds.dropWhile isSpaceCp)).head? = some e → isSpaceCp e = false :=
            fun e he => head_dropWhile_false ds e he
          have hss2 : stripStart (collapseWs (ds.dropWhile isSpaceCp))
              = collapseWs (ds.dropWhile isSpaceCp) :=
            stripStart_of_head _ (head_collapseWs_false _ hu)
          have hse : stripEnd (collapseWs (ds.dropWhile isSpaceCp))
              = joinSep [32] (pySplit (ds.dropWhile isSpaceCp)) := by
            have hi := ih _ hlen2
            rw [pyStrip, hss2] at hi
            exact hi
          have hps : pySplit (d :: ds) = pySplit (ds.dropWhile isSpaceCp) := by
            rw [pySplit_cons_space ds hd2, pySplit_dropWhile_space]
          rw [collapseWs_cons_space ds hd2, stripEnd_cons_space _ (by decide), hse, hps]
          cases hP : pySplit (ds.dropWhile isSpaceCp) with
          | nil => simp [joinSep]
          | cons p ps =>
            have hp : p ≠ [] :=
              (pySplit_words_sound (ds.dropWhile isSpaceCp).length _ le_rfl p
                (by rw [hP]; simp)).1
            rw [if_neg (joinSep_ne_nil p ps hp)]
            show _ ++ (32 :: joinSep [32] (p :: ps))
              = _ ++ [32] ++ joinSep [32] (p :: ps)
            simp

/-- The code normalization agrees with the normalization as the spec words
it. -/
theorem normalize_str_eq_spec (v : Option PyVal) :
    _normalize_str v = normalizeSpec v := by
  cases v with
  | none => rfl
  | some v =>
    show _normalize_str (some v) = pyStrip (collapseWs (pyLower v.toStr))
    rw [normalize_str_some, pyStrip_collapseWs (pyLower v.toStr).length _ le_rfl]

/-- Claim C6: the contributor identity hash is the 256-bit hex digest of the
pipe-joined tuple (name, city, state, zip, occupation, employer), in that
fixed order, each field first normalized exactly as the spec words it:
missing or empty becomes the empty string, the text is lower-cased, internal
whitespace runs collapse to a single space, leading and trailing whitespace
is trimmed. -/
theorem claim_c6_contributor_hash (r : ContributionRow) :
    make_contributor_hash r =
      _sha256_hex (joinSep [124]
        [normalizeSpec r.contributor_name, normalizeSpec r.contributor_city,
         normalizeSpec r.contributor_state, normalizeSpec r.contributor_zip_code,
         normalizeSpec r.contributor_occupation,
         normalizeSpec r.contributor_employer]) := by
  unfold make_contributor_hash contributorNormParts
  simp only [normalize_str_eq_spec]

/-- Claim C9: `transform_candidates_to_df` is not total: a record whose
`election_years` key maps to the empty list raises `IndexError`, while the
default `[None][0]` only applies when the key is absent. -/
theorem claim_c9_transform_candidates_partial :
    transform_candidates_to_df (some [candEmptyYears])
        = Except.error PyError.indexError
      ∧ transform_candidates_to_df (some [candNoYears])
        = Except.ok [CandidateRow.mk (some (pvStr "C002")) (some (pvStr "Bob"))
            none none none none] := by
  decide

/-- Claim C10: the contributor identity hash is not injective over distinct
normalized field tuples: `("a|b", "c", ...)` and `("a", "b|c", ...)` have
different normalized tuples but identical pipe-joined strings, hence equal
hashes. -/
theorem claim_c10_hash_not_injective :
    make_contributor_hash rowC10a = make_contributor_hash rowC10b
      ∧ contributorNormParts rowC10a ≠ contributorNormParts rowC10b := by
  decide

/-- Claim C4 is false on the code: with an amount of `0.0` the code hashes
the empty string, not the raw text `"0.0"`, because of `or ""`; the digest
differs from the one the claim specifies. -/
theorem claim_c4_counterexample :
    make_contribution_hash rowC4 (some (pvStr "ab"))
      ≠ _sha256_hex (pystr "C1|2024-01-01|0.0|ab") := by
  decide

/-- Claim C4 (amended): the contribution hash is the digest of the
pipe-joined tuple (committee_id, date, amount, contributor hash) in that
order, where each component is the raw `str()` text of a truthy value and
the empty string for a missing or falsy one; a committee id `"C1"`
contributes `"C1"`, but an amount of `0.0` (falsy) contributes `""`. -/
theorem claim_c4_amended (r : ContributionRow) (h : Option PyVal) :
    make_contribution_hash r h =
        _sha256_hex (joinSep [124]
          [pyOrEmptyStr r.committee_id, pyOrEmptyStr r.contribution_date,
           pyOrEmptyStr r.contribution_amount, pyOrEmptyStr h])
      ∧ pyOrEmptyStr (some (pvStr "C1")) = pystr "C1"
      ∧ pyOrEmptyStr (some pvFloatZero) = [] := by
  refine ⟨rfl, by decide, rfl⟩

/-- Claim C2 is false on the code: with an id map that does not contain the
row hash, the row is not dropped; it stays in the final batch with a null
`contributor_id`. -/
theorem claim_c2_counterexample :
    (buildFinalContributions [] [rowC2]).length = 1
      ∧ (buildFinalContributions [] [rowC2]).map (fun f => f.contributor_id)
        = [none] := by
  decide

/-- Pandas `drop_duplicates` commutes with a key-preserving row map. -/
theorem dedupByAux_map_keyfix {α β} (key1 : α → PyStr) (key2 : β → PyStr)
    (g : α → β) (hk : ∀ a, key2 (g a) = key1 a) :
    ∀ (l : List α) (seen : List PyStr),
      dedupByAux key2 (l.map g) seen = (dedupByAux key1 l seen).map g := by
  intro l
  induction l with
  | nil => intro seen; rfl
  | cons a l ih =>
    intro seen
    simp only [List.map_cons, dedupByAux, hk a]
    by_cases hs : seen.contains (key1 a)
    · rw [if_pos hs, if_pos hs]
      exact ih seen
    · rw [if_neg hs, if_neg hs, List.map_cons, ih]

/-- Rows surviving `drop_duplicates` come from the input. -/
theorem mem_dedupByAux {α} (key : α → PyStr) :
    ∀ (l : List α) (seen : List PyStr) (x : α),
      x ∈ dedupByAux key l seen → x ∈ l := by
  intro l
  induction l with
  | nil => intro seen x hx; exact absurd hx (by simp [dedupByAux])
  | cons a l ih =>
    intro seen x hx
    simp only [dedupByAux] at hx
    by_cases hs : seen.contains (key a)
    · rw [if_pos hs] at hx
      exact List.mem_cons_of_mem a (ih _ x hx)
    · rw [if_neg hs] at hx
      rcases List.mem_cons.mp hx with hx | hx
      · exact hx ▸ List.mem_cons_self a l
      · exact List.mem_cons_of_mem a (ih _ x hx)

/-- Claim C2 (amended): rows whose contributor hash fails to map are NOT
dropped.  The final batch is the same whatever the id map, apart from the
attached `contributor_id` column, and with an empty map every loaded row
carries a null `contributor_id`. -/
theorem claim_c2_amended (m : List (PyStr × Nat)) (rows : List ContributionRow) :
    (buildFinalContributions m rows).map eraseContributorId
        = buildFinalContributions [] rows
      ∧ (buildFinalContributions [] rows).all
          (fun f => f.contributor_id == none) = true := by
  constructor
  · unfold buildFinalContributions drop_duplicates
    rw [← dedupByAux_map_keyfix (fun f => f.contribution_hash)
        (fun f => f.contribution_hash) eraseContributorId (fun a => rfl) _ [],
      List.map_map]
    rfl
  · rw [List.all_eq_true]
    intro f hf
    have hf2 := mem_dedupByAux _ _ _ _ hf
    obtain ⟨r, _, rfl⟩ := List.mem_map.mp hf2
    rfl

/-- Claim C1 is false on the code: the contributor insert is `ON CONFLICT
(contributor_hash) DO NOTHING`, so a repeated identity hash does not
overwrite the descriptive fields with the incoming values; the stored name
stays `"Old Name"`. -/
theorem claim_c1_counterexample :
    (findByHash (upsertContributors tableC1 [recNewC1]) (pystr "h1")).map
        (fun s => s.name) ≠ some recNewC1.name := by
  decide

/-- The id dict built from the `SELECT ... WHERE contributor_hash = ANY`
query maps a hash to the id of the first stored row with that hash. -/
theorem lookup_selectIdMap :
    ∀ (l : List Contributor) (h : PyStr),
      lookupId ((l.filter (fun s => [h].contains s.contributor_hash)).map
          (fun s => (s.contributor_hash, s.contributor_id))) h
        = (l.find? (fun s => s.contributor_hash == h)).map
            (fun s => s.contributor_id) := by
  intro l
  induction l with
  | nil => intro h; rfl
  | cons a l ih =>
    intro h
    by_cases hah : a.contributor_hash = h
    · have hb : (a.contributor_hash == h) = true := by simp [hah]
      have hcont : (([h] : List PyStr).contains a.contributor_hash) = true := by
        simp [hah]
      rw [List.filter_cons, if_pos hcont, List.map_cons,
        List.find?_cons_of_pos (p := fun s : Contributor => s.contributor_hash == h)
          l hb]
      unfold lookupId
      rw [List.find?_cons_of_pos (p := fun q : PyStr × Nat => q.1 == h) _ hb]
      rfl
    · have hb : (a.contributor_hash == h) = false := by
        simp [hah]
      have hcont : (([h] : List PyStr).contains a.contributor_hash) = false := by
        simp
        intro hcon
        exact hah hcon
      rw [List.filter_cons, if_neg (by simp only [hcont]; exact Bool.false_ne_true),
        List.find?_cons_of_neg
          (p := fun s : Contributor => s.contributor_hash == h) l (by simp [hb])]
      exact ih h

/-- Claim C1 (amended): on a repeated identity hash the insert is a no-op:
the store is unchanged, the existing descriptive fields and surrogate id are
preserved, and the hash-to-id dict built by the follow-up `SELECT` query
maps the hash to the existing surrogate id. -/
theorem claim_c1_amended (t : ContributorsTable) (r : ContributorRecord)
    (s : Contributor) (hs : findByHash t r.contributor_hash = some s) :
    insertContributorDoNothing t r = t
      ∧ lookupId (selectContributorIdMap (insertContributorDoNothing t r)
            [r.contributor_hash]) r.contributor_hash = some s.contributor_id := by
  have hmem : (t.rows.any (fun x => x.contributor_hash == r.contributor_hash))
      = true := by
    unfold findByHash at hs
    exact List.any_eq_true.mpr
      ⟨s,
        List.mem_of_find?_eq_some
          (p := fun x : Contributor => x.contributor_hash == r.contributor_hash) hs,
        List.find?_some
          (p := fun x : Contributor => x.contributor_hash == r.contributor_hash) hs⟩
  have hins : insertContributorDoNothing t r = t := by
    unfold insertContributorDoNothing
    rw [if_pos hmem]
  refine ⟨hins, ?_⟩
  rw [hins]
  unfold selectContributorIdMap
  rw [lookup_selectIdMap]
  unfold findByHash at hs
  rw [hs]
  rfl

/-- Witness for the amended claim C1 at a concrete store and record. -/
theorem claim_c1_amended_witness :
    insertContributorDoNothing tableC1 recNewC1 = tableC1
      ∧ lookupId (selectContributorIdMap
            (insertContributorDoNothing tableC1 recNewC1)
            [recNewC1.contributor_hash]) recNewC1.contributor_hash = some 7 :=
  claim_c1_amended tableC1 recNewC1 storedC1 (by decide)

/-- The chunks of a batch concatenate back to the batch. -/
theorem concatAll_chunksOfAux :
    ∀ (fuel n : Nat) (l : List α), 0 < n → l.length ≤ fuel →
      concatAll (chunksOfAux n fuel l) = l := by
  intro fuel
  induction fuel with
  | zero =>
    intro n l _ hl
    have : l = [] := List.length_eq_zero.mp (Nat.le_zero.mp hl)
    subst this
    rfl
  | succ fuel ih =>
    intro n l hn hl
    cases l with
    | nil => rfl
    | cons a l2 =>
      show (a :: l2).take n ++ concatAll (chunksOfAux n fuel ((a :: l2).drop n)) = _
      rw [ih n _ hn (by
        have hl2 := hl
        simp only [List.length_drop, List.length_cons] at hl2 ⊢
        omega)]
      exact List.take_append_drop n (a :: l2)

/-- Every chunk is nonempty and no larger than the chunk size. -/
theorem chunksOfAux_sizes :
    ∀ (fuel n : Nat) (l : List α), 0 < n →
      ∀ c ∈ chunksOfAux n fuel l, c ≠ [] ∧ c.length ≤ n := by
  intro fuel
  induction fuel with
  | zero =>
    intro n l _ c hc
    exact absurd hc (by simp [chunksOfAux])
  | succ fuel ih =>
    intro n l hn c hc
    cases l with
    | nil => exact absurd hc (by simp [chunksOfAux])
    | cons a l2 =>
      rcases List.mem_cons.mp hc with hc | hc
      · subst hc
        cases n with
        | zero => omega
        | succ m =>
          constructor
          · rw [List.take_succ_cons]
            simp
          · rw [List.length_take]
            omega
      · exact ih n _ hn c hc

/-- The commit count of the trace of one load call with chunks. -/
theorem commitCount_chunks (chunks : List (List α)) (q : QueryKind) :
    commitCount ((chunks.map (LoadOp.execChunk q)) ++ [LoadOp.commit]) = 1 := by
  induction chunks with
  | nil => rfl
  | cons c cs ih =>
    show commitCount (LoadOp.execChunk q c :: _) = 1
    unfold commitCount at ih ⊢
    rw [List.countP_cons]
    simp [ih]

/-- The executed chunks of the trace of one load call. -/
theorem execChunks_chunks (chunks : List (List α)) (q : QueryKind) :
    execChunks ((chunks.map (LoadOp.execChunk q)) ++ [LoadOp.commit]) = chunks := by
  induction chunks with
  | nil => rfl
  | cons c cs ih =>
    show execChunks (LoadOp.execChunk q c :: _) = c :: cs
    unfold execChunks at ih ⊢
    rw [List.filterMap_cons]
    simpa using ih

set_option maxRecDepth 8000 in
/-- Claim C5 is false on the code: `load_df_to_db` on a 1001-row batch
issues two chunks but only one commit, so each chunk is NOT committed as its
own unit. -/
theorem claim_c5_counterexample :
    commitCount (load_df_to_db "candidates" (List.replicate 1001 (0 : Nat))) = 1
      ∧ (chunksOf 1000 (List.replicate 1001 (0 : Nat))).length = 2 := by
  constructor
  · decide
  · decide

/-- Claim C5 (amended): a nonempty batch is split into chunks of at most
1000 rows which concatenate back to the batch, each chunk is applied as one
`execute_values` call, and a SINGLE commit ends the whole call: the
durability point is the whole batch, not each chunk. -/
theorem claim_c5_amended (table_name : String) (rows : List α)
    (hne : rows ≠ []) :
    commitCount (load_df_to_db table_name rows) = 1
      ∧ (load_df_to_db table_name rows).getLast? = some LoadOp.commit
      ∧ execChunks (load_df_to_db table_name rows) = chunksOf 1000 rows
      ∧ concatAll (chunksOf 1000 rows) = rows
      ∧ ∀ c ∈ chunksOf 1000 rows, c ≠ [] ∧ c.length ≤ 1000 := by
  have hE : rows.isEmpty = false := by
    cases rows with
    | nil => exact absurd rfl hne
    | cons a l => rfl
  have hload : load_df_to_db table_name rows
      = ((chunksOf 1000 rows).map (LoadOp.execChunk
          (if table_name == "contributions" then
            QueryKind.insertOnConflictHashDoNothing
          else QueryKind.upsertOnConflictPk)))
        ++ [LoadOp.commit] := by
    unfold load_df_to_db
    rw [hE]
    rfl
  refine ⟨?_, ?_, ?_, ?_, ?_⟩
  · rw [hload]
    exact commitCount_chunks _ _
  · rw [hload]
    exact List.getLast?_concat _
  · rw [hload]
    exact execChunks_chunks _ _
  · exact concatAll_chunksOfAux rows.length 1000 rows (by omega) le_rfl
  · exact chunksOfAux_sizes rows.length 1000 rows (by omega)

/-- Witness for the amended claim C5 at a concrete one-row batch. -/
theorem claim_c5_amended_witness :
    commitCount (load_df_to_db "candidates" ([0] : List Nat)) = 1
      ∧ execChunks (load_df_to_db "candidates" ([0] : List Nat))
        = chunksOf 1000 [0]
      ∧ concatAll (chunksOf 1000 ([0] : List Nat)) = [0] := by
  have h := claim_c5_amended "candidates" ([0] : List Nat) (by simp)
  exact ⟨h.1, h.2.2.1, h.2.2.2.1⟩

/-- Claim C3 is false on the code: with a present, nonempty cursor and a
missing `page` or `pages` field, the comparison `page >= pages` is
`None >= None`, which raises `TypeError`; the paginator does not terminate
normally. -/
theorem claim_c3_counterexample :
    _fetch_all_pages [respC3] = Except.error FetchError.typeError := by
  decide

/-- Claim C3 (amended): a missing or falsy cursor object terminates
pagination normally as "no more pages" without touching `page`/`pages`; but
when the cursor is present and nonempty while `page` or `pages` is missing,
the loop raises `TypeError` instead of terminating. -/
theorem claim_c3_amended {ρ : Type} (r : ApiResponse ρ)
    (rest : List (ApiResponse ρ)) :
    (truthyDict (r.pagination.getD emptyPagination).last_indexes = false →
        _fetch_all_pages (r :: rest) = Except.ok (r.results.getD [], 1))
      ∧ (truthyDict (r.pagination.getD emptyPagination).last_indexes = true →
          ((r.pagination.getD emptyPagination).page = none
            ∨ (r.pagination.getD emptyPagination).pages = none) →
          _fetch_all_pages (r :: rest) = Except.error FetchError.typeError) := by
  constructor
  · intro hf
    have hb : pageBreak r = Except.ok true := by
      simp [pageBreak, hf]
    show fetchAllPagesAux (r :: rest) _ [] 0 = _
    simp only [fetchAllPagesAux, hb]
    simp
  · intro ht hnone
    have hb : pageBreak r = Except.error FetchError.typeError := by
      simp only [pageBreak, ht, if_true]
      rcases hnone with h1 | h1
      · rw [h1]
        cases (r.pagination.getD emptyPagination).pages <;> rfl
      · rw [h1]
        cases (r.pagination.getD emptyPagination).page <;> rfl
    show fetchAllPagesAux (r :: rest) _ [] 0 = _
    simp only [fetchAllPagesAux, hb]

/-- Witness for the amended claim C3: a response with no envelope ends the
walk normally with its results; a response with a cursor but no page fields
raises. -/
theorem claim_c3_amended_witness :
    _fetch_all_pages [respFalsyCursor] = Except.ok ([3], 1)
      ∧ _fetch_all_pages [respC3] = Except.error FetchError.typeError :=
  ⟨(claim_c3_amended respFalsyCursor []).1 (by decide),
    (claim_c3_amended respC3 []).2 (by decide) (Or.inl rfl)⟩

/-- Fact: `concatAll` distributes over append. -/
theorem concatAll_append (A B : List (List α)) :
    concatAll (A ++ B) = concatAll A ++ concatAll B := by
  induction A with
  | nil => rfl
  | cons a A ih =>
    show a ++ concatAll (A ++ B) = (a ++ concatAll A) ++ concatAll B
    rw [ih, List.append_assoc]

/-- The loop exit test on an envelope with a present nonempty cursor is the
`page >= pages` comparison. -/
theorem pageBreak_mk {ρ : Type} (res : Option (List ρ)) (pg pgs : Option Int)
    (cur : List (PyStr × PyVal)) (hc : cur ≠ []) :
    pageBreak (ApiResponse.mk res (some (Pagination.mk pg pgs (some cur))))
      = pyGeOpt pg pgs := by
  cases cur with
  | nil => exact absurd rfl hc
  | cons a b => simp [pageBreak, truthyDict]

/-- Running the loop over break-false responses followed by one break-true
response consumes them all, concatenating the results in order and counting
one request per response. -/
theorem fetchAux_run {ρ : Type} :
    ∀ (mid : List (ApiResponse ρ)) (lst : ApiResponse ρ) (p : FetchParams)
      (acc : List ρ) (n : Nat),
      (∀ r ∈ mid, pageBreak r = Except.ok false) →
      pageBreak lst = Except.ok true →
      fetchAllPagesAux (mid ++ [lst]) p acc n
        = Except.ok (acc ++ concatAll (mid.map (fun r => r.results.getD []))
            ++ lst.results.getD [], n + mid.length + 1) := by
  intro mid
  induction mid with
  | nil =>
    intro lst p acc n _ hlast
    show fetchAllPagesAux [lst] p acc n = _
    simp only [fetchAllPagesAux, hlast]
    simp [concatAll]
  | cons r mid ih =>
    intro lst p acc n hmid hlast
    have hr := hmid r (by simp)
    show fetchAllPagesAux (r :: (mid ++ [lst])) p acc n = _
    simp only [fetchAllPagesAux, hr]
    rw [ih lst _ _ _ (fun x hx => hmid x (by simp [hx])) hlast,
      show n + 1 + mid.length + 1 = n + (mid.length + 1) + 1 from by omega]
    simp [concatAll, List.append_assoc]

/-- Claim C7: given a finite upstream of `N` well-formed pages, where page
`i` carries its results, its page number `i+1`, the total `N` and a
nonempty cursor, the paginator terminates with exactly the concatenation of
the `N` result lists in upstream order and issues exactly `N` requests. -/
theorem claim_c7_pagination {ρ : Type} (N : Nat) (hN : 1 ≤ N)
    (results : Nat → List ρ) (cursor : Nat → List (PyStr × PyVal))
    (hcur : ∀ i, i < N → cursor i ≠ []) :
    _fetch_all_pages ((List.range N).map (fun i =>
        ApiResponse.mk (some (results i))
          (some (Pagination.mk (some ((i : Int) + 1)) (some (N : Int))
            (some (cursor i))))))
      = Except.ok (concatAll ((List.range N).map results), N) := by
  obtain ⟨M, rfl⟩ : ∃ M, N = M + 1 := ⟨N - 1, by omega⟩
  rw [List.range_succ, List.map_append]
  simp only [List.map_cons, List.map_nil]
  unfold _fetch_all_pages
  rw [fetchAux_run _ _ _ _ _ ?_ ?_]
  · rw [List.map_map]
    have hres : ((fun r : ApiResponse ρ => r.results.getD []) ∘ (fun i =>
        ApiResponse.mk (some (results i))
          (some (Pagination.mk (some ((i : Int) + 1)) (some ((M + 1 : Nat) : Int))
            (some (cursor i)))))) = results := by
      funext i
      rfl
    rw [hres, List.map_append, concatAll_append]
    simp [List.length_map, List.length_range, concatAll]
  · intro r hr
    obtain ⟨i, hi, rfl⟩ := List.mem_map.mp hr
    have hiM : i < M := List.mem_range.mp hi
    rw [pageBreak_mk _ _ _ _ (hcur i (Nat.lt_succ_of_lt hiM))]
    simp [pyGeOpt]
    omega
  · rw [pageBreak_mk _ _ _ _ (hcur M (Nat.lt_succ_self M))]
    simp [pyGeOpt]

/-- Witness for claim C7 at a concrete two-page upstream. -/
theorem claim_c7_pagination_witness :
    _fetch_all_pages ((List.range 2).map (fun i =>
        ApiResponse.mk (some ([i] : List Nat))
          (some (Pagination.mk (some ((i : Int) + 1)) (some (2 : Int))
            (some [(pystr "last_index", pvStr "x")])))))
      = Except.ok (concatAll ((List.range 2).map (fun i => [i])), 2) :=
  claim_c7_pagination 2 (by decide) (fun i => [i])
    (fun _ => [(pystr "last_index", pvStr "x")]) (fun i _ => by simp)
